import Mathlib

/-!
Shallow embedding of the terminal-tetris engine (src/tetris.rs and
src/tetris/tetris_block.rs) and proofs about it.

Modelling conventions:
* `Color` is `Nat`; `0` stands for `Color::Black` (an empty cell), any other
  value for an occupied cell's color tag.
* The board `filled_area : Vec<Vec<Color>>` becomes `List (List Nat)`; its
  outer index is the primary (falling) axis, the inner index the secondary
  axis, exactly as in the source.
* Rust `i32` positions become `Int`; the source's `as usize` casts become
  `Int.toNat`, which agrees with the Rust cast on the non-negative values the
  theorems quantify over.
* Rust indexing (which panics out of bounds) becomes `List.getD` / `List.set`
  (which default / no-op out of bounds); theorems carry the in-bounds
  hypotheses under which the two coincide.
* The source's `enumerate` loops over pattern cells become `List.range`-driven
  `any` / `all` / recursion over the same index ranges, producing the same
  values in the same order.
* `TetrisBlock::new_random()` draws from a thread-local RNG; operations that
  call it (`finish_round` and its callers) take the freshly drawn block as an
  explicit `fresh` parameter instead.
* UI-only fields of `struct Tetris` (terminal handles, rects, cursor and exit
  flags, move interval) are not part of the engine state the claims are about
  and are omitted.
-/

namespace TerminalTetris

/-- Game phase, `enum GameState` in src/tetris.rs. -/
inductive GameState where
  | Playing
  | Paused
  | Finished
deriving DecidableEq

/-- Cell colors; `0` is `Color::Black`, the empty cell. -/
abbrev Color := Nat

/-- `struct TetrisBlock` from src/tetris/tetris_block.rs: a color tag, an
`(i32, i32)` position `(primary, secondary)` and a boolean occupancy
pattern indexed `pattern[primary][secondary]`. -/
structure TetrisBlock where
  color : Color
  pos : Int × Int
  pattern : List (List Bool)
deriving DecidableEq

namespace TetrisBlock

/-- `TetrisBlock::rotate90`: for the source pattern, `width` is the outer
length and `height` the maximum inner length, both clamped to at least 1;
the new pattern is `height` rows of `width` cells with
`new[height - h - 1][w] = pattern[w][h]`, i.e. row `a` cell `w` holds
`pattern[w][height - 1 - a]`. Out-of-range reads (which panic in Rust)
are modelled by `getD _ false`. -/
def rotate90 (pattern : List (List Bool)) : List (List Bool) :=
  let width := max 1 pattern.length
  let height := max 1 ((pattern.map List.length).foldr max 0)
  (List.range height).map fun a =>
    (List.range width).map fun w => (pattern.getD w []).getD (height - 1 - a) false

end TetrisBlock

/-- `enum MoveDirection` from src/tetris.rs. -/
inductive MoveDirection where
  | Up
  | Down
deriving DecidableEq

/-- Engine-relevant fields of `struct Tetris` from src/tetris.rs. -/
structure Tetris where
  game_state : GameState
  rounds : Nat
  points : Nat
  game_width : Nat
  game_height : Nat
  next_width : Int
  next_height : Int
  filled_area : List (List Nat)
  current_block : TetrisBlock
  next_block : TetrisBlock
deriving DecidableEq

/-- Board cell read `filled_area[x][y]`, defaulting to Black out of range. -/
def cellAt (fa : List (List Nat)) (x y : Nat) : Nat :=
  (fa.getD x []).getD y 0

/-- Existential scan over the pattern cells, mirroring the source's nested
`for (i, col) in pattern.iter().enumerate() { for (j, draw) in ... }` loops
that look for a filled cell satisfying `f`. -/
def anyCell (p : List (List Bool)) (f : Nat → Nat → Bool) : Bool :=
  (List.range p.length).any fun i =>
    (List.range (p.getD i []).length).any fun j =>
      (p.getD i []).getD j false && f i j

/-- Universal scan over the pattern cells: every filled cell satisfies `f`
(the source's early-`break` loops compute the same value). -/
def allCells (p : List (List Bool)) (f : Nat → Nat → Bool) : Bool :=
  (List.range p.length).all fun i =>
    (List.range (p.getD i []).length).all fun j =>
      !((p.getD i []).getD j false) || f i j

namespace Tetris

/-- `Tetris::pause`: toggles Playing/Paused, no-op when Finished. -/
def pause (t : Tetris) : Tetris :=
  match t.game_state with
  | GameState.Playing => { t with game_state := GameState.Paused }
  | GameState.Paused => { t with game_state := GameState.Playing }
  | GameState.Finished => t

/-- Shared prologue of the movement operations: `if Paused, set Playing`. -/
def unpause (t : Tetris) : Tetris :=
  if t.game_state = GameState.Paused then { t with game_state := GameState.Playing } else t

/-- Inner loop of the commit step of `Tetris::finish_round`: writes color `c`
at secondary index `y + j` for every `j` with `col[j] = true`, starting at
index `j`. -/
def commitColAux (c y : Nat) : Nat → List Bool → List Nat → List Nat
  | _, [], row => row
  | j, d :: rest, row =>
      commitColAux c y (j + 1) rest (if d then row.set (y + j) c else row)

/-- Commit one pattern column into one board row (secondary offset `y`). -/
def commitCol (c y : Nat) (col : List Bool) (row : List Nat) : List Nat :=
  commitColAux c y 0 col row

/-- Full-row test `filled_area[x + i].iter().all(|c| *c != Color::Black)`. -/
def rowFull (row : List Nat) : Bool :=
  row.all fun v => v != 0

/-- Row reset `iter_mut().for_each(|x| *x = Color::Black)`. -/
def blankRow (row : List Nat) : List Nat :=
  List.replicate row.length 0

/-- Rust `slice::rotate_right(1)`: the last element moves to the front. -/
def rotOne (l : List (List Nat)) : List (List Nat) :=
  l.drop (l.length - 1) ++ l.take (l.length - 1)

/-- `self.filled_area[..r + 1].rotate_right(1)`: rotate the first `r + 1`
rows right by one, keep the rest. -/
def rotHead (fa : List (List Nat)) (r : Nat) : List (List Nat) :=
  rotOne (fa.take (r + 1)) ++ fa.drop (r + 1)

/-- Commit-and-clear loop of `Tetris::finish_round`: for each pattern column
`i` (scanned in increasing order, board row `x + i`), first write the filled
cells, then if the row became full, blank it and rotate the prefix
`[0 ..= x + i]` right by one, counting the clear. Returns the final board and
the number of cleared rows. -/
def commitClearAux (c x y : Nat) : Nat → List (List Bool) → List (List Nat) → List (List Nat) × Nat
  | _, [], fa => (fa, 0)
  | i, col :: rest, fa =>
      let fa1 := fa.set (x + i) (commitCol c y col (fa.getD (x + i) []))
      if rowFull (fa1.getD (x + i) []) then
        let fa2 := rotHead (fa1.set (x + i) (blankRow (fa1.getD (x + i) []))) (x + i)
        let res := commitClearAux c x y (i + 1) rest fa2
        (res.1, res.2 + 1)
      else
        commitClearAux c x y (i + 1) rest fa1

/-- Commit-and-clear pass of `Tetris::finish_round` for the current block. -/
def commitClear (b : TetrisBlock) (fa : List (List Nat)) : List (List Nat) × Nat :=
  commitClearAux b.color b.pos.1.toNat b.pos.2.toNat 0 b.pattern fa

/-- Commit-only pass (reference construction for stating the line-clear
theorems): every filled cell of the pattern written into the board, no
full-row checks. -/
def commitAllAux (c x y : Nat) : Nat → List (List Bool) → List (List Nat) → List (List Nat)
  | _, [], fa => fa
  | i, col :: rest, fa =>
      commitAllAux c x y (i + 1) rest (fa.set (x + i) (commitCol c y col (fa.getD (x + i) [])))

/-- Commit-only pass for a block. -/
def commitAll (b : TetrisBlock) (fa : List (List Nat)) : List (List Nat) :=
  commitAllAux b.color b.pos.1.toNat b.pos.2.toNat 0 b.pattern fa

/-- Effect of clearing row `r`: blank it, then rotate the prefix
`[0 ..= r]` right by one (the source's two statements in sequence). -/
def clearRow (fa : List (List Nat)) (r : Nat) : List (List Nat) :=
  rotHead (fa.set r (blankRow (fa.getD r []))) r

/-- Scoring table of `Tetris::finish_round` (`match cleared_cols`). -/
def scoreFor (n : Nat) : Nat :=
  match n with
  | 1 => 40
  | 2 => 100
  | 3 => 300
  | 4 => 1200
  | _ => 0

/-- `next_block.pattern.iter().map(|x| x.len()).max().unwrap_or(0)`. -/
def maxColLen (p : List (List Bool)) : Nat :=
  (p.map List.length).foldr max 0

/-- Loss check of `Tetris::finish_round`: some filled cell of the
about-to-spawn block overlaps an occupied board cell at rows `i`,
secondary offset `sy`. -/
def spawnOverlap (b : TetrisBlock) (fa : List (List Nat)) (sy : Nat) : Bool :=
  anyCell b.pattern fun i j => cellAt fa i (j + sy) != 0

/-- `Tetris::finish_round`: commit the current block, clear full rows, add
points and a round, then either finish the game (spawn overlap) or promote
`next_block` to `current_block` at the clamped spawn position and stage the
freshly drawn block `fresh` as the new `next_block`. -/
def finish_round (fresh : TetrisBlock) (t : Tetris) : Tetris :=
  let res := commitClear t.current_block t.filled_area
  let fa := res.1
  let pts := t.points + scoreFor res.2
  let rds := t.rounds + 1
  let starting_y_pos :=
    min t.current_block.pos.2.toNat (t.game_height - maxColLen t.next_block.pattern)
  if spawnOverlap t.next_block fa starting_y_pos then
    { t with filled_area := fa, points := pts, rounds := rds,
             game_state := GameState.Finished }
  else
    { t with filled_area := fa, points := pts, rounds := rds,
             current_block := { t.next_block with pos := (0, (starting_y_pos : Int)) },
             next_block := { fresh with
               pos := (t.next_width / 2 - (fresh.pattern.length : Int) / 2,
                       t.next_height / 2 - ((fresh.pattern.getD 0 []).length : Int) / 2) } }

/-- Collision test of `Tetris::move_forward` at primary position `x`: some
filled cell `(i, j)` has `x + i + 1 >= filled_area.len()` or the destination
cell `filled_area[x + i + 1][y + j]` occupied. -/
def hitsAt (t : Tetris) (x : Nat) : Bool :=
  anyCell t.current_block.pattern fun i j =>
    decide (t.filled_area.length ≤ x + i + 1) ||
      (cellAt t.filled_area (x + i + 1) (t.current_block.pos.2.toNat + j) != 0)

/-- `Tetris::move_forward`: no-op when Finished; un-pauses when Paused; then
either locks the piece in (`finish_round`) when blocked, or advances the
primary coordinate by one. The second component counts the `finish_round`
calls made (0 or 1). -/
def move_forward (fresh : TetrisBlock) (t : Tetris) : Tetris × Nat :=
  if t.game_state = GameState.Finished then (t, 0)
  else
    let t1 := unpause t
    if hitsAt t1 t1.current_block.pos.1.toNat then (finish_round fresh t1, 1)
    else
      ({ t1 with current_block := { t1.current_block with
           pos := (t1.current_block.pos.1 + 1, t1.current_block.pos.2) } }, 0)

/-- Fuel-indexed version of the `loop` in `Tetris::get_end_move_pos`: return
the current `x` when blocked, otherwise step to `x + 1`. The fuel bounds the
number of iterations; `get_end_move_pos` supplies enough fuel whenever the
pattern has a filled cell (proved below). -/
def endPosAux (t : Tetris) : Nat → Nat → Nat
  | 0, x => x
  | fuel + 1, x => if hitsAt t x then x else endPosAux t fuel (x + 1)

/-- `Tetris::get_end_move_pos`: the drop destination, computed without
mutating the state. -/
def get_end_move_pos (t : Tetris) : Int × Int :=
  ((endPosAux t (t.filled_area.length + 1) t.current_block.pos.1.toNat : Int),
   (t.current_block.pos.2.toNat : Int))

/-- `Tetris::move_till_end`: no-op when Finished; un-pauses when Paused; then
teleports the current block to the drop destination and locks it in. -/
def move_till_end (fresh : TetrisBlock) (t : Tetris) : Tetris :=
  if t.game_state = GameState.Finished then t
  else
    let t1 := unpause t
    let t2 := { t1 with current_block := { t1.current_block with
        pos := ((get_end_move_pos t1).1, t1.current_block.pos.2) } }
    finish_round fresh t2

/-- Collision test of `Tetris::move_side` for lateral direction `dir`
(`-1` = Down, `1` = Up): some filled cell is at the board edge in that
direction or its lateral neighbour is occupied. -/
def sideBlocked (t : Tetris) (dir : Int) : Bool :=
  anyCell t.current_block.pattern fun i j =>
    (decide (t.current_block.pos.2.toNat + j = 0) && decide (dir < 0)) ||
      (decide (t.current_block.pos.2.toNat + j + 1 = t.game_height) && decide (0 < dir)) ||
      (cellAt t.filled_area (t.current_block.pos.1.toNat + i)
          (((t.current_block.pos.2.toNat : Int) + (j : Int) + dir).toNat) != 0)

/-- `Tetris::move_side`: no-op when Finished; un-pauses when Paused; then
shifts the secondary coordinate by one unless blocked. -/
def move_side (d : MoveDirection) (t : Tetris) : Tetris :=
  if t.game_state = GameState.Finished then t
  else
    let t1 := unpause t
    let dir : Int := match d with
      | MoveDirection.Down => -1
      | MoveDirection.Up => 1
    if sideBlocked t1 dir then t1
    else { t1 with current_block := { t1.current_block with
        pos := (t1.current_block.pos.1, t1.current_block.pos.2 + dir) } }

/-- Placement test of `Tetris::rotate90` for candidate pattern `p` at
`(x, y)`: every filled cell lands on an in-bounds, unoccupied board cell. -/
def fits (fa : List (List Nat)) (gw gh : Nat) (p : List (List Bool)) (x y : Nat) : Bool :=
  allCells p fun i j =>
    decide (x + i < gw) && decide (y + j < gh) && (cellAt fa (x + i) (y + j) == 0)

/-- Counting loop of `Tetris::rotate90` (`for move_y in 0..rem`): the first
offset (counting from `m`) passing `test`, among the next `rem` values. -/
def kickSearch (test : Nat → Bool) : Nat → Nat → Option Nat
  | _, 0 => none
  | m, rem + 1 => if test m then some m else kickSearch test (m + 1) rem

/-- `Tetris::rotate90`: no-op when Finished; un-pauses when Paused; then
tries the clockwise-rotated pattern at offsets `0 .. max (min 4 y) 1`
backward along the secondary axis, accepting the first that fits. -/
def rotate90 (t : Tetris) : Tetris :=
  if t.game_state = GameState.Finished then t
  else
    let t1 := unpause t
    let newp := TetrisBlock.rotate90 t1.current_block.pattern
    let x := t1.current_block.pos.1.toNat
    let y := t1.current_block.pos.2.toNat
    match kickSearch
        (fun m => fits t1.filled_area t1.game_width t1.game_height newp x (y - m))
        0 (max (min 4 y) 1) with
    | some m =>
        { t1 with current_block := { t1.current_block with
            pattern := newp,
            pos := (t1.current_block.pos.1, t1.current_block.pos.2 - (m : Int)) } }
    | none => t1

end Tetris

/-! ## Concrete states used by witnesses and counterexamples -/

/-- Concrete blocked Playing state for the C1 witness: a one-cell piece
already resting on the lower wall of a one-row board. -/
def blockedState : Tetris :=
  { game_state := GameState.Playing, rounds := 0, points := 0,
    game_width := 1, game_height := 2, next_width := 2, next_height := 2,
    filled_area := [[0, 0]],
    current_block := { color := 2, pos := (0, 0), pattern := [[true]] },
    next_block := { color := 3, pos := (0, 1), pattern := [[true]] } }


/-- Fresh block used by several witnesses. -/
def freshBlock : TetrisBlock :=
  { color := 4, pos := (0, 0), pattern := [[true]] }


/-- Concrete Finished state for the C2 witness. -/
def finishedState : Tetris :=
  { game_state := GameState.Finished, rounds := 5, points := 40,
    game_width := 2, game_height := 2, next_width := 2, next_height := 2,
    filled_area := [[7, 0], [0, 0]],
    current_block := { color := 2, pos := (0, 0), pattern := [[true]] },
    next_block := { color := 3, pos := (0, 1), pattern := [[true]] } }


/-- Concrete Playing state whose lock-in clears no row, for the C9 witness. -/
def noClearState : Tetris :=
  { game_state := GameState.Playing, rounds := 3, points := 100,
    game_width := 2, game_height := 2, next_width := 2, next_height := 2,
    filled_area := [[0, 0], [0, 0]],
    current_block := { color := 2, pos := (0, 0), pattern := [[true]] },
    next_block := { color := 3, pos := (0, 1), pattern := [[true]] } }


/-- Concrete Paused state that loses the game on one drop command, for the
C4 counterexample: the piece is resting on an occupied cell and the next
piece would spawn onto the cell the current piece locks into. -/
def pausedDoomed : Tetris :=
  { game_state := GameState.Paused, rounds := 0, points := 0,
    game_width := 2, game_height := 2, next_width := 2, next_height := 2,
    filled_area := [[0, 0], [1, 0]],
    current_block := { color := 2, pos := (0, 0), pattern := [[true]] },
    next_block := { color := 3, pos := (0, 0), pattern := [[true]] } }


/-- Concrete Playing state whose rotation succeeds at kick offset 0, for the
C3 witness. -/
def rotOkState : Tetris :=
  { game_state := GameState.Playing, rounds := 0, points := 0,
    game_width := 1, game_height := 2, next_width := 2, next_height := 2,
    filled_area := [[0, 0]],
    current_block := { color := 2, pos := (0, 0), pattern := [[true]] },
    next_block := { color := 3, pos := (0, 1), pattern := [[true]] } }


/-- Concrete Paused state where gravity is unobstructed, for the C4 witness. -/
def pausedFree : Tetris :=
  { game_state := GameState.Paused, rounds := 0, points := 0,
    game_width := 2, game_height := 1, next_width := 2, next_height := 2,
    filled_area := [[0], [0]],
    current_block := { color := 2, pos := (0, 0), pattern := [[true]] },
    next_block := { color := 3, pos := (0, 0), pattern := [[true]] } }


/-- Concrete Playing state whose lock-in completes exactly its own row, for
the C5 witness: the piece's single cell fills the hole in board row 1. -/
def oneRowState : Tetris :=
  { game_state := GameState.Playing, rounds := 0, points := 0,
    game_width := 3, game_height := 2, next_width := 2, next_height := 2,
    filled_area := [[1, 1], [2, 0], [3, 3]],
    current_block := { color := 7, pos := (1, 1), pattern := [[true]] },
    next_block := { color := 3, pos := (0, 0), pattern := [[true]] } }


/-- Concrete Playing state with a one-cell piece over an empty two-row board,
for the C10 witness. -/
def dropState : Tetris :=
  { game_state := GameState.Playing, rounds := 0, points := 0,
    game_width := 2, game_height := 1, next_width := 2, next_height := 2,
    filled_area := [[0], [0]],
    current_block := { color := 2, pos := (0, 0), pattern := [[true]] },
    next_block := { color := 3, pos := (0, 0), pattern := [[true]] } }

/-! ## General lemmas about the operations -/

theorem unpause_of_playing {t : Tetris} (h : t.game_state = GameState.Playing) :
    Tetris.unpause t = t := by
  simp [Tetris.unpause, h]

theorem unpause_of_paused {t : Tetris} (h : t.game_state = GameState.Paused) :
    Tetris.unpause t = { t with game_state := GameState.Playing } := by
  simp [Tetris.unpause, h]

theorem finish_round_points (fresh : TetrisBlock) (t : Tetris) :
    (Tetris.finish_round fresh t).points =
      t.points + Tetris.scoreFor (Tetris.commitClear t.current_block t.filled_area).2 := by
  simp only [Tetris.finish_round]
  split <;> rfl

theorem finish_round_rounds (fresh : TetrisBlock) (t : Tetris) :
    (Tetris.finish_round fresh t).rounds = t.rounds + 1 := by
  simp only [Tetris.finish_round]
  split <;> rfl

theorem scoreFor_of_gt_four {n : Nat} (h : 4 < n) : Tetris.scoreFor n = 0 := by
  match n, h with
  | n + 5, _ => rfl

theorem getD_eq_get {α : Type} {l : List α} {i : Nat} (h : i < l.length) (d : α) :
    l.getD i d = l[i] := by
  rw [List.getD_eq_getElem?_getD, List.getElem?_eq_getElem h]
  rfl

theorem getD_map_range {α : Type} (n : Nat) (f : Nat → α) (d : α) {a : Nat} (ha : a < n) :
    ((List.range n).map f).getD a d = f a := by
  rw [List.getD_eq_getElem?_getD, List.getElem?_map, List.getElem?_range ha]
  rfl

theorem foldr_max_of_rect {p : List (List Bool)} {H : Nat} (hne : p ≠ [])
    (hrect : ∀ r ∈ p, r.length = H) : (p.map List.length).foldr max 0 = H := by
  induction p with
  | nil => exact absurd rfl hne
  | cons a l ih =>
    cases l with
    | nil =>
      simp only [List.map_cons, List.map_nil, List.foldr_cons, List.foldr_nil]
      rw [hrect a (List.mem_cons_self a [])]
      omega
    | cons b l2 =>
      simp only [List.map_cons, List.foldr_cons] at ih ⊢
      rw [ih (by simp) (fun r hr => hrect r (List.mem_cons_of_mem a hr)),
        hrect a (List.mem_cons_self a _)]
      omega

/-- Behaviour of `TetrisBlock.rotate90` on a non-degenerate rectangular
pattern of outer length `W` and inner length `H`: the result has outer length
`H`, inner length `W`, and cell `(a, b)` of the result is cell
`(b, H - 1 - a)` of the input — the clockwise quarter turn. -/
theorem rotate90_spec {p : List (List Bool)} {W H : Nat} (hW : p.length = W)
    (hrect : ∀ r ∈ p, r.length = H) (hW1 : 1 ≤ W) (hH1 : 1 ≤ H) :
    (TetrisBlock.rotate90 p).length = H ∧
    (∀ r ∈ TetrisBlock.rotate90 p, r.length = W) ∧
    ∀ a b, a < H → b < W →
      ((TetrisBlock.rotate90 p).getD a []).getD b false =
        (p.getD b []).getD (H - 1 - a) false := by
  have hne : p ≠ [] := by
    intro hnil
    rw [hnil] at hW
    simp at hW
    omega
  have hwidth : max 1 p.length = W := by omega
  have hheight : max 1 ((p.map List.length).foldr max 0) = H := by
    rw [foldr_max_of_rect hne hrect]
    omega
  simp only [TetrisBlock.rotate90, hwidth, hheight]
  refine ⟨by simp, ?_, ?_⟩
  · intro r hr
    rcases List.mem_map.mp hr with ⟨a, _, hfa⟩
    rw [← hfa]
    simp
  · intro a b ha hb
    rw [getD_map_range H _ [] ha, getD_map_range W _ false hb]

/-- C7: `TetrisBlock::rotate90` is a pure transform: on every rectangular
pattern with outer length `W ≥ 1` and inner length `H ≥ 1` (in particular
every tetromino pattern) it produces a pattern of outer length `H` and inner
length `W` whose cell `(h, w)` is the input's cell `(w, H - 1 - h)` — a
clockwise quarter turn; and on every input whatsoever its output has at least
one row and every output row at least one cell (the dimensions are clamped to
a minimum of 1, so a 0-size shape is never produced). -/
theorem claim_C7 (p : List (List Bool)) (W H : Nat) (hW : p.length = W)
    (hrect : ∀ r ∈ p, r.length = H) (hW1 : 1 ≤ W) (hH1 : 1 ≤ H) :
    (TetrisBlock.rotate90 p).length = H ∧
    (∀ r ∈ TetrisBlock.rotate90 p, r.length = W) ∧
    (∀ a b, a < H → b < W →
      ((TetrisBlock.rotate90 p).getD a []).getD b false =
        (p.getD b []).getD (H - 1 - a) false) ∧
    ∀ q : List (List Bool),
      1 ≤ (TetrisBlock.rotate90 q).length ∧
        ∀ r ∈ TetrisBlock.rotate90 q, 1 ≤ r.length := by
  obtain ⟨h1, h2, h3⟩ := rotate90_spec hW hrect hW1 hH1
  refine ⟨h1, h2, h3, fun q => ⟨?_, ?_⟩⟩
  · simp [TetrisBlock.rotate90]
  · intro r hr
    rcases List.mem_map.mp hr with ⟨a, _, hfa⟩
    rw [← hfa]
    simp

theorem claim_C7_witness :
    (TetrisBlock.rotate90 [[true, true, true], [false, true, false]]).length = 3 ∧
    ((TetrisBlock.rotate90 [[true, true, true], [false, true, false]]).getD 0 []).getD 0 false =
      (([[true, true, true], [false, true, false]] : List (List Bool)).getD 0 []).getD 2 false :=
  ⟨(claim_C7 [[true, true, true], [false, true, false]] 2 3 rfl (by decide) (by decide)
      (by decide)).1,
   (claim_C7 [[true, true, true], [false, true, false]] 2 3 rfl (by decide) (by decide)
      (by decide)).2.2.1 0 0 (by decide) (by decide)⟩

theorem getD_mem_of_lt {α : Type} {l : List α} {i : Nat} (h : i < l.length) (d : α) :
    l.getD i d ∈ l := by
  rw [getD_eq_get h d]
  exact List.getElem_mem h

/-- C8: applying `TetrisBlock::rotate90` four times to any non-degenerate
rectangular pattern (in particular any tetromino pattern) returns the
original pattern exactly. -/
theorem claim_C8 (p : List (List Bool)) (W H : Nat) (hW : p.length = W)
    (hrect : ∀ r ∈ p, r.length = H) (hW1 : 1 ≤ W) (hH1 : 1 ≤ H) :
    TetrisBlock.rotate90 (TetrisBlock.rotate90 (TetrisBlock.rotate90
      (TetrisBlock.rotate90 p))) = p := by
  obtain ⟨L1, R1, E1⟩ := rotate90_spec hW hrect hW1 hH1
  obtain ⟨L2, R2, E2⟩ := rotate90_spec L1 R1 hH1 hW1
  obtain ⟨L3, R3, E3⟩ := rotate90_spec L2 R2 hW1 hH1
  obtain ⟨L4, R4, E4⟩ := rotate90_spec L3 R3 hH1 hW1
  have cell4 : ∀ a b, a < W → b < H →
      (((TetrisBlock.rotate90 (TetrisBlock.rotate90 (TetrisBlock.rotate90
        (TetrisBlock.rotate90 p)))).getD a []).getD b false) =
        (p.getD a []).getD b false := by
    intro a b ha hb
    rw [E4 a b ha hb]
    rw [E3 b (W - 1 - a) hb (by omega)]
    rw [E2 (W - 1 - a) (H - 1 - b) (by omega) (by omega)]
    rw [E1 (H - 1 - b) (W - 1 - (W - 1 - a)) (by omega) (by omega)]
    have ea : W - 1 - (W - 1 - a) = a := by omega
    have eb : H - 1 - (H - 1 - b) = b := by omega
    rw [ea, eb]
  apply List.ext_getElem
  · rw [L4, hW]
  · intro i h1 h2
    have hiW : i < W := by omega
    apply List.ext_getElem
    · have m4 := R4 _ (List.getElem_mem h1)
      have mp := hrect _ (List.getElem_mem h2)
      rw [m4, mp]
    · intro j j1 j2
      have hjH : j < H := by
        have mp := hrect _ (List.getElem_mem h2)
        omega
      have := cell4 i j hiW hjH
      rw [getD_eq_get (by omega) [], getD_eq_get (by omega) [],
        getD_eq_get (by omega) false, getD_eq_get (by omega) false] at this
      exact this

theorem claim_C8_witness :
    TetrisBlock.rotate90 (TetrisBlock.rotate90 (TetrisBlock.rotate90
      (TetrisBlock.rotate90 [[true, true, true], [false, true, false]]))) =
      [[true, true, true], [false, true, false]] :=
  claim_C8 [[true, true, true], [false, true, false]] 2 3 rfl (by decide) (by decide) (by decide)

/-! ## Claim theorems -/

/-- C1: with phase = Playing, when some filled cell of the current piece has
its one-step destination along the primary axis out of bounds or occupied
(`hitsAt`), `move_forward` calls `finish_round` exactly once on the state with
the current position untouched; when no cell is blocked, it increments the
primary coordinate of `current_block.pos` by exactly one, changes nothing
else, and triggers no lock-in. -/
theorem claim_C1 (t : Tetris) (fresh : TetrisBlock) (h : t.game_state = GameState.Playing) :
    (Tetris.hitsAt t t.current_block.pos.1.toNat = true →
        Tetris.move_forward fresh t = (Tetris.finish_round fresh t, 1)) ∧
    (Tetris.hitsAt t t.current_block.pos.1.toNat = false →
        Tetris.move_forward fresh t =
          ({ t with current_block := { t.current_block with
               pos := (t.current_block.pos.1 + 1, t.current_block.pos.2) } }, 0)) := by
  have hu : Tetris.unpause t = t := unpause_of_playing h
  constructor <;> intro hb <;> simp [Tetris.move_forward, h, hu, hb]

theorem claim_C1_witness :
    Tetris.move_forward freshBlock blockedState =
      (Tetris.finish_round freshBlock blockedState, 1) :=
  (claim_C1 blockedState freshBlock rfl).1 (by decide)

/-- C2: Finished is absorbing — with phase = Finished every engine operation
(`move_forward`, `move_side`, `rotate90`, `move_till_end`, `pause`) returns
the state completely unchanged (board, score, round, both pieces, phase), and
`move_forward` triggers no lock-in. -/
theorem claim_C2 (t : Tetris) (fresh : TetrisBlock) (d : MoveDirection)
    (h : t.game_state = GameState.Finished) :
    Tetris.move_forward fresh t = (t, 0) ∧
    Tetris.move_side d t = t ∧
    Tetris.rotate90 t = t ∧
    Tetris.move_till_end fresh t = t ∧
    Tetris.pause t = t := by
  refine ⟨?_, ?_, ?_, ?_, ?_⟩ <;>
    simp [Tetris.move_forward, Tetris.move_side, Tetris.rotate90,
      Tetris.move_till_end, Tetris.pause, h]

theorem claim_C2_witness :
    Tetris.move_forward freshBlock finishedState = (finishedState, 0) ∧
    Tetris.move_side MoveDirection.Up finishedState = finishedState ∧
    Tetris.rotate90 finishedState = finishedState ∧
    Tetris.move_till_end freshBlock finishedState = finishedState ∧
    Tetris.pause finishedState = finishedState :=
  claim_C2 finishedState freshBlock MoveDirection.Up rfl

/-- C6: the points awarded by a single lock-in are a pure function of the
number of rows cleared in that commit (`finish_round` adds exactly
`scoreFor cleared` to the score), and that function maps 0 to 0, 1 to 40,
2 to 100, 3 to 300, 4 to 1200, and every count above 4 to 0. -/
theorem claim_C6 :
    (∀ (t : Tetris) (fresh : TetrisBlock),
        (Tetris.finish_round fresh t).points =
          t.points + Tetris.scoreFor (Tetris.commitClear t.current_block t.filled_area).2) ∧
    Tetris.scoreFor 0 = 0 ∧ Tetris.scoreFor 1 = 40 ∧ Tetris.scoreFor 2 = 100 ∧
    Tetris.scoreFor 3 = 300 ∧ Tetris.scoreFor 4 = 1200 ∧
    ∀ n, 4 < n → Tetris.scoreFor n = 0 :=
  ⟨fun t fresh => finish_round_points fresh t, rfl, rfl, rfl, rfl, rfl,
   fun _ h => scoreFor_of_gt_four h⟩

theorem claim_C6_witness : Tetris.scoreFor 7 = 0 :=
  claim_C6.2.2.2.2.2.2 7 (by decide)

/-- C9: every lock-in increments `rounds` by exactly 1, whether or not a line
cleared; and a lock-in that clears zero rows leaves `points` unchanged. -/
theorem claim_C9 (t : Tetris) (fresh : TetrisBlock) :
    (Tetris.finish_round fresh t).rounds = t.rounds + 1 ∧
    ((Tetris.commitClear t.current_block t.filled_area).2 = 0 →
      (Tetris.finish_round fresh t).points = t.points) := by
  refine ⟨finish_round_rounds fresh t, fun h0 => ?_⟩
  rw [finish_round_points, h0]
  rfl

theorem claim_C9_witness :
    (Tetris.finish_round freshBlock noClearState).rounds = noClearState.rounds + 1 ∧
    (Tetris.finish_round freshBlock noClearState).points = noClearState.points :=
  ⟨(claim_C9 noClearState freshBlock).1, (claim_C9 noClearState freshBlock).2 (by decide)⟩

/-- C4 counterexample: a single engine operation can transition Paused to
Finished, contradicting the claim. In `pausedDoomed` the game is Paused, the
one-cell piece rests on an occupied cell, and the next piece's spawn cell is
the very cell the current piece locks into; one `move_till_end` call
un-pauses, locks the piece in, the spawn check fails, and the phase becomes
Finished. -/
theorem claim_C4_cex :
    pausedDoomed.game_state = GameState.Paused ∧
    (Tetris.move_till_end freshBlock pausedDoomed).game_state = GameState.Finished := by
  exact ⟨rfl, by decide⟩

/-- C4 amended: from Paused, `pause`, `rotate90` and `move_side` always leave
the phase Playing (never Finished); `move_forward` also ends in phase Playing
whenever it does not trigger a lock-in. Finished is only reachable from
Paused through the lock-in performed by `move_forward` or `move_till_end`
after they first un-pause the game. -/
theorem claim_C4_amended (t : Tetris) (d : MoveDirection) (fresh : TetrisBlock)
    (h : t.game_state = GameState.Paused) :
    (Tetris.pause t).game_state = GameState.Playing ∧
    (Tetris.rotate90 t).game_state = GameState.Playing ∧
    (Tetris.move_side d t).game_state = GameState.Playing ∧
    ((Tetris.move_forward fresh t).2 = 0 →
      (Tetris.move_forward fresh t).1.game_state = GameState.Playing) := by
  have hu : Tetris.unpause t = { t with game_state := GameState.Playing } :=
    unpause_of_paused h
  refine ⟨?_, ?_, ?_, ?_⟩
  · simp [Tetris.pause, h]
  · simp only [Tetris.rotate90, h, hu]
    rw [if_neg (by decide)]
    split <;> rfl
  · simp only [Tetris.move_side, h, hu]
    rw [if_neg (by decide)]
    split <;> rfl
  · simp only [Tetris.move_forward, h, hu]
    rw [if_neg (by decide)]
    split
    · intro h0
      simp at h0
    · intro _
      rfl

theorem kickSearch_eq_some (test : Nat → Bool) :
    ∀ (rem m k : Nat), k < rem → test (m + k) = true →
      (∀ k2, k2 < k → test (m + k2) = false) →
      Tetris.kickSearch test m rem = some (m + k) := by
  intro rem
  induction rem with
  | zero =>
    intro m k hk
    omega
  | succ n ih =>
    intro m k hk htest hbelow
    rw [Tetris.kickSearch]
    by_cases h0 : test m = true
    · have hk0 : k = 0 := by
        by_contra hne
        have hb := hbelow 0 (Nat.pos_of_ne_zero hne)
        rw [Nat.add_zero] at hb
        rw [h0] at hb
        exact Bool.noConfusion hb
      rw [if_pos h0, hk0, Nat.add_zero]
    · rw [if_neg h0]
      have hk0 : k ≠ 0 := by
        intro he
        rw [he, Nat.add_zero] at htest
        exact h0 htest
      have heq : m + 1 + (k - 1) = m + k := by omega
      have hres := ih (m + 1) (k - 1) (by omega) (by rw [heq]; exact htest)
        (fun k2 hk2 => by
          have := hbelow (k2 + 1) (by omega)
          rw [show m + 1 + k2 = m + (k2 + 1) by omega]
          exact this)
      rw [hres, heq]

theorem kickSearch_eq_none (test : Nat → Bool) :
    ∀ (rem m : Nat), (∀ k, k < rem → test (m + k) = false) →
      Tetris.kickSearch test m rem = none := by
  intro rem
  induction rem with
  | zero =>
    intro m _
    rfl
  | succ n ih =>
    intro m hall
    rw [Tetris.kickSearch]
    have h0 : ¬test m = true := by
      have := hall 0 (Nat.succ_pos n)
      rw [Nat.add_zero] at this
      rw [this]
      exact Bool.false_ne_true
    rw [if_neg h0]
    exact ih (m + 1) (fun k hk => by
      rw [show m + 1 + k = m + (k + 1) by omega]
      exact hall (k + 1) (by omega))

/-- C3: with phase = Playing, `rotate90` tries kick offsets
`0, 1, ..., max (min 4 y) 1 - 1` (in increasing order, every tried offset at
most the secondary coordinate `y`) against the clockwise-rotated pattern; the
first offset at which the rotated pattern fits (all filled cells in-bounds and
unoccupied) is accepted, replacing the pattern and reducing the secondary
coordinate by that offset; if no tried offset fits, the state is unchanged. -/
theorem claim_C3 (t : Tetris) (h : t.game_state = GameState.Playing) :
    (∀ m, m < max (min 4 t.current_block.pos.2.toNat) 1 →
      m ≤ t.current_block.pos.2.toNat) ∧
    (∀ m0, m0 < max (min 4 t.current_block.pos.2.toNat) 1 →
      Tetris.fits t.filled_area t.game_width t.game_height
        (TetrisBlock.rotate90 t.current_block.pattern)
        t.current_block.pos.1.toNat (t.current_block.pos.2.toNat - m0) = true →
      (∀ m, m < m0 →
        Tetris.fits t.filled_area t.game_width t.game_height
          (TetrisBlock.rotate90 t.current_block.pattern)
          t.current_block.pos.1.toNat (t.current_block.pos.2.toNat - m) = false) →
      Tetris.rotate90 t = { t with current_block := { t.current_block with
        pattern := TetrisBlock.rotate90 t.current_block.pattern,
        pos := (t.current_block.pos.1, t.current_block.pos.2 - (m0 : Int)) } }) ∧
    ((∀ m, m < max (min 4 t.current_block.pos.2.toNat) 1 →
        Tetris.fits t.filled_area t.game_width t.game_height
          (TetrisBlock.rotate90 t.current_block.pattern)
          t.current_block.pos.1.toNat (t.current_block.pos.2.toNat - m) = false) →
      Tetris.rotate90 t = t) := by
  have hu : Tetris.unpause t = t := unpause_of_playing h
  refine ⟨fun m hm => by omega, ?_, ?_⟩
  · intro m0 hm0 hfit hbelow
    simp only [Tetris.rotate90, h, hu]
    rw [if_neg (by decide)]
    rw [kickSearch_eq_some _ _ 0 m0 hm0 (by rw [Nat.zero_add]; exact hfit)
      (fun k2 hk2 => by rw [Nat.zero_add]; exact hbelow k2 hk2)]
    rw [Nat.zero_add]
  · intro hall
    simp only [Tetris.rotate90, h, hu]
    rw [if_neg (by decide)]
    rw [kickSearch_eq_none _ _ 0 (fun k hk => by rw [Nat.zero_add]; exact hall k hk)]

theorem claim_C3_witness :
    Tetris.rotate90 rotOkState = { rotOkState with
      current_block := { rotOkState.current_block with
        pattern := TetrisBlock.rotate90 rotOkState.current_block.pattern,
        pos := (rotOkState.current_block.pos.1,
                rotOkState.current_block.pos.2 - ((0 : Nat) : Int)) } } :=
  (claim_C3 rotOkState rfl).2.1 0 (by decide) (by decide)
    (fun m hm => absurd hm (Nat.not_lt_zero m))

theorem claim_C4_amended_witness :
    (Tetris.pause pausedFree).game_state = GameState.Playing ∧
    (Tetris.rotate90 pausedFree).game_state = GameState.Playing ∧
    (Tetris.move_side MoveDirection.Up pausedFree).game_state = GameState.Playing ∧
    (Tetris.move_forward freshBlock pausedFree).1.game_state = GameState.Playing :=
  ⟨(claim_C4_amended pausedFree MoveDirection.Up freshBlock rfl).1,
   (claim_C4_amended pausedFree MoveDirection.Up freshBlock rfl).2.1,
   (claim_C4_amended pausedFree MoveDirection.Up freshBlock rfl).2.2.1,
   (claim_C4_amended pausedFree MoveDirection.Up freshBlock rfl).2.2.2 (by decide)⟩

theorem getD_set_self {α : Type} {l : List α} {a : Nat} (h : a < l.length) (v d : α) :
    (l.set a v).getD a d = v := by
  rw [List.getD_eq_getElem?_getD, List.getElem?_set_self h]
  rfl

theorem getD_set_ne {α : Type} {l : List α} {a b : Nat} (h : a ≠ b) (v d : α) :
    (l.set a v).getD b d = l.getD b d := by
  rw [List.getD_eq_getElem?_getD, List.getElem?_set_ne h, ← List.getD_eq_getElem?_getD]

theorem length_rotOne (l : List (List Nat)) : (Tetris.rotOne l).length = l.length := by
  simp only [Tetris.rotOne, List.length_append, List.length_drop, List.length_take]
  omega

theorem length_clearRow {fa : List (List Nat)} {r : Nat} (h : r < fa.length) :
    (Tetris.clearRow fa r).length = fa.length := by
  simp only [Tetris.clearRow, Tetris.rotHead, List.length_append, length_rotOne,
    List.length_take, List.length_drop, List.length_set]
  omega

theorem getElem?_clearRow {fa : List (List Nat)} {r : Nat} (h : r < fa.length) (n : Nat) :
    (Tetris.clearRow fa r)[n]? =
      if n = 0 then some (Tetris.blankRow (fa.getD r []))
      else if n ≤ r then fa[n - 1]?
      else fa[n]? := by
  have hgl : (fa.set r (Tetris.blankRow (fa.getD r []))).length = fa.length := by simp
  have hl : ((fa.set r (Tetris.blankRow (fa.getD r []))).take (r + 1)).length = r + 1 := by
    rw [List.length_take]
    omega
  have hcr : Tetris.clearRow fa r =
      (((fa.set r (Tetris.blankRow (fa.getD r []))).take (r + 1)).drop r ++
        ((fa.set r (Tetris.blankRow (fa.getD r []))).take (r + 1)).take r) ++
        (fa.set r (Tetris.blankRow (fa.getD r []))).drop (r + 1) := by
    rw [Tetris.clearRow, Tetris.rotHead, Tetris.rotOne, hl]
    simp
  rw [hcr]
  have hdl : (((fa.set r (Tetris.blankRow (fa.getD r []))).take (r + 1)).drop r).length = 1 := by
    rw [List.length_drop, hl]
    omega
  have htl : (((fa.set r (Tetris.blankRow (fa.getD r []))).take (r + 1)).take r).length = r := by
    rw [List.length_take, hl]
    omega
  by_cases h0 : n = 0
  · subst h0
    rw [if_pos rfl, List.getElem?_append_left (by rw [List.length_append, hdl, htl]; omega),
      List.getElem?_append_left (by omega), List.getElem?_drop,
      List.getElem?_take_of_lt (by omega), Nat.add_zero, List.getElem?_set_self h]
  · by_cases h1 : n ≤ r
    · rw [if_neg h0, if_pos h1,
        List.getElem?_append_left (by rw [List.length_append, hdl, htl]; omega),
        List.getElem?_append_right (by omega), hdl,
        List.getElem?_take_of_lt (by omega), List.getElem?_take_of_lt (by omega),
        List.getElem?_set_ne (by omega)]
    · rw [if_neg h0, if_neg h1,
        List.getElem?_append_right (by rw [List.length_append, hdl, htl]; omega),
        List.length_append, hdl, htl, List.getElem?_drop,
        show r + 1 + (n - (1 + r)) = n by omega, List.getElem?_set_ne (by omega)]

theorem length_commitAllAux (c x y : Nat) :
    ∀ (cols : List (List Bool)) (k : Nat) (fa : List (List Nat)),
      (Tetris.commitAllAux c x y k cols fa).length = fa.length := by
  intro cols
  induction cols with
  | nil =>
    intro k fa
    rfl
  | cons col rest ih =>
    intro k fa
    rw [Tetris.commitAllAux, ih]
    simp

theorem getElem?_commitAllAux (c x y : Nat) :
    ∀ (cols : List (List Bool)) (k : Nat) (fa : List (List Nat)) (n : Nat),
      (Tetris.commitAllAux c x y k cols fa)[n]? =
        if x + k ≤ n ∧ n < x + k + cols.length then
          (fa[n]?).map (Tetris.commitCol c y (cols.getD (n - (x + k)) []))
        else fa[n]? := by
  intro cols
  induction cols with
  | nil =>
    intro k fa n
    rw [Tetris.commitAllAux, if_neg (by simp only [List.length_nil]; omega)]
  | cons col rest ih =>
    intro k fa n
    rw [Tetris.commitAllAux, ih (k + 1) _ n]
    by_cases h0 : n = x + k
    · subst h0
      rw [if_neg (by omega), if_pos (by simp only [List.length_cons]; omega),
        show x + k - (x + k) = 0 by omega, List.getD_cons_zero]
      rcases hfa : fa[x + k]? with _ | row
      · have hge : fa.length ≤ x + k := by
          by_contra hcon
          rw [List.getElem?_eq_getElem (by omega)] at hfa
          exact Option.noConfusion hfa
        rw [List.getElem?_eq_none (by simpa using hge)]
        rfl
      · have hlt : x + k < fa.length := by
          by_contra hcon
          rw [List.getElem?_eq_none (by omega)] at hfa
          exact Option.noConfusion hfa
        rw [List.getElem?_set_self hlt,
          show fa.getD (x + k) [] = row by rw [List.getD_eq_getElem?_getD, hfa]; rfl]
        rfl
    · rw [List.getElem?_set_ne (Ne.symm h0)]
      by_cases h1 : x + k + 1 ≤ n ∧ n < x + k + 1 + rest.length
      · rw [if_pos (by omega : x + (k + 1) ≤ n ∧ n < x + (k + 1) + rest.length),
          if_pos (by simp only [List.length_cons]; omega),
          show n - (x + k) = (n - (x + k + 1)) + 1 by omega, List.getD_cons_succ,
          show x + (k + 1) = x + k + 1 by omega]
      · rw [if_neg (by omega : ¬(x + (k + 1) ≤ n ∧ n < x + (k + 1) + rest.length)),
          if_neg (by simp only [List.length_cons]; omega)]

theorem commitAllAux_clearRow_comm (c x y : Nat)
    (cols : List (List Bool)) (k : Nat) (fa : List (List Nat)) (r : Nat)
    (hr1 : r < x + k) (hr2 : r < fa.length) :
    Tetris.commitAllAux c x y k cols (Tetris.clearRow fa r) =
      Tetris.clearRow (Tetris.commitAllAux c x y k cols fa) r := by
  have hlen := length_commitAllAux c x y cols k fa
  have hBr : (Tetris.commitAllAux c x y k cols fa).getD r [] = fa.getD r [] := by
    rw [List.getD_eq_getElem?_getD, getElem?_commitAllAux, if_neg (by omega),
      ← List.getD_eq_getElem?_getD]
  apply List.ext_getElem?
  intro n
  by_cases h0 : n = 0
  · subst h0
    rw [getElem?_commitAllAux, if_neg (by omega), getElem?_clearRow hr2, if_pos rfl,
      getElem?_clearRow (by omega) 0, if_pos rfl, hBr]
  · by_cases h1 : n ≤ r
    · rw [getElem?_commitAllAux, if_neg (by omega), getElem?_clearRow hr2, if_neg h0, if_pos h1,
        getElem?_clearRow (by omega) n, if_neg h0, if_pos h1,
        getElem?_commitAllAux, if_neg (by omega)]
    · rw [getElem?_commitAllAux, getElem?_clearRow hr2 n, if_neg h0, if_neg h1,
        getElem?_clearRow (by omega) n, if_neg h0, if_neg h1, getElem?_commitAllAux]

theorem commitClearAux_no_full (c x y : Nat) :
    ∀ (cols : List (List Bool)) (k : Nat) (fa : List (List Nat)),
      x + k + cols.length ≤ fa.length →
      (∀ i, i < cols.length →
        Tetris.rowFull (Tetris.commitCol c y (cols.getD i []) (fa.getD (x + k + i) [])) = false) →
      Tetris.commitClearAux c x y k cols fa = (Tetris.commitAllAux c x y k cols fa, 0) := by
  intro cols
  induction cols with
  | nil =>
    intro k fa _ _
    rfl
  | cons col rest ih =>
    intro k fa hb hall
    have hlt : x + k < fa.length := by
      simp only [List.length_cons] at hb
      omega
    have h0 := hall 0 (by simp)
    rw [List.getD_cons_zero, Nat.add_zero] at h0
    simp only [Tetris.commitClearAux, Tetris.commitAllAux]
    rw [if_neg (by rw [getD_set_self hlt, h0]; exact Bool.false_ne_true)]
    exact ih (k + 1) (fa.set (x + k) (Tetris.commitCol c y col (fa.getD (x + k) [])))
      (by simp only [List.length_set, List.length_cons] at hb ⊢; omega)
      (fun i hi => by
        rw [getD_set_ne (by omega), show x + (k + 1) + i = x + k + (i + 1) by omega]
        have := hall (i + 1) (by simp only [List.length_cons]; omega)
        rw [List.getD_cons_succ] at this
        exact this)

theorem commitClearAux_single (c x y : Nat) :
    ∀ (cols : List (List Bool)) (k : Nat) (fa : List (List Nat)) (i0 : Nat),
      i0 < cols.length →
      x + k + cols.length ≤ fa.length →
      Tetris.rowFull (Tetris.commitCol c y (cols.getD i0 []) (fa.getD (x + k + i0) [])) = true →
      (∀ i, i < cols.length → i ≠ i0 →
        Tetris.rowFull (Tetris.commitCol c y (cols.getD i []) (fa.getD (x + k + i) [])) = false) →
      Tetris.commitClearAux c x y k cols fa =
        (Tetris.clearRow (Tetris.commitAllAux c x y k cols fa) (x + k + i0), 1) := by
  intro cols
  induction cols with
  | nil =>
    intro k fa i0 hi0
    simp at hi0
  | cons col rest ih =>
    intro k fa i0 hi0 hb hfull hothers
    have hlt : x + k < fa.length := by
      simp only [List.length_cons] at hb
      omega
    rcases i0 with _ | i1
    · -- the head row is the unique full one
      rw [Nat.add_zero] at hfull ⊢
      rw [List.getD_cons_zero] at hfull
      simp only [Tetris.commitClearAux, Tetris.commitAllAux]
      rw [if_pos (by rw [getD_set_self hlt]; exact hfull)]
      have hfa1len : (fa.set (x + k)
          (Tetris.commitCol c y col (fa.getD (x + k) []))).length = fa.length := by simp
      have hstep : Tetris.rotHead
          ((fa.set (x + k) (Tetris.commitCol c y col (fa.getD (x + k) []))).set (x + k)
            (Tetris.blankRow ((fa.set (x + k)
              (Tetris.commitCol c y col (fa.getD (x + k) []))).getD (x + k) [])))
          (x + k) =
          Tetris.clearRow (fa.set (x + k)
            (Tetris.commitCol c y col (fa.getD (x + k) []))) (x + k) := rfl
      rw [hstep]
      have hclen : (Tetris.clearRow (fa.set (x + k)
          (Tetris.commitCol c y col (fa.getD (x + k) []))) (x + k)).length = fa.length := by
        rw [length_clearRow (by omega)]
        exact hfa1len
      rw [commitClearAux_no_full c x y rest (k + 1) _
        (by rw [hclen]; simp only [List.length_cons] at hb; omega)
        (fun i hi => by
          have hcell : (Tetris.clearRow (fa.set (x + k)
              (Tetris.commitCol c y col (fa.getD (x + k) []))) (x + k)).getD
                (x + (k + 1) + i) [] = fa.getD (x + (k + 1) + i) [] := by
            rw [List.getD_eq_getElem?_getD,
              getElem?_clearRow (by omega) (x + (k + 1) + i), if_neg (by omega),
              if_neg (by omega), List.getElem?_set_ne (by omega),
              ← List.getD_eq_getElem?_getD]
          rw [hcell, show x + (k + 1) + i = x + k + (i + 1) by omega]
          have := hothers (i + 1) (by simp only [List.length_cons]; omega)
            (Nat.succ_ne_zero i)
          rw [List.getD_cons_succ] at this
          exact this)]
      rw [commitAllAux_clearRow_comm c x y rest (k + 1) _ (x + k) (by omega) (by omega)]
    · -- the full row lies strictly below the head
      have h0 := hothers 0 (by simp) (by omega)
      rw [List.getD_cons_zero, Nat.add_zero] at h0
      simp only [Tetris.commitClearAux, Tetris.commitAllAux]
      rw [if_neg (by rw [getD_set_self hlt, h0]; exact Bool.false_ne_true)]
      rw [ih (k + 1) (fa.set (x + k) (Tetris.commitCol c y col (fa.getD (x + k) []))) i1
        (by simp only [List.length_cons] at hi0; omega)
        (by simp only [List.length_set, List.length_cons] at hb ⊢; omega)
        (by
          rw [getD_set_ne (by omega), show x + (k + 1) + i1 = x + k + (i1 + 1) by omega]
          have := hfull
          rw [List.getD_cons_succ] at this
          exact this)
        (fun i hi hne => by
          rw [getD_set_ne (by omega), show x + (k + 1) + i = x + k + (i + 1) by omega]
          have := hothers (i + 1) (by simp only [List.length_cons]; omega) (by omega)
          rw [List.getD_cons_succ] at this
          exact this)]
      rw [show x + (k + 1) + i1 = x + k + (i1 + 1) by omega]

theorem commitClear_single (b : TetrisBlock) (fa : List (List Nat)) (i0 : Nat)
    (hi : i0 < b.pattern.length)
    (hb : b.pos.1.toNat + b.pattern.length ≤ fa.length)
    (hfull : Tetris.rowFull (Tetris.commitCol b.color b.pos.2.toNat
      (b.pattern.getD i0 []) (fa.getD (b.pos.1.toNat + i0) [])) = true)
    (hothers : ∀ i, i < b.pattern.length → i ≠ i0 →
      Tetris.rowFull (Tetris.commitCol b.color b.pos.2.toNat
        (b.pattern.getD i []) (fa.getD (b.pos.1.toNat + i) [])) = false) :
    Tetris.commitClear b fa =
      (Tetris.clearRow (Tetris.commitAll b fa) (b.pos.1.toNat + i0), 1) := by
  have h := commitClearAux_single b.color b.pos.1.toNat b.pos.2.toNat
    b.pattern 0 fa i0 hi (by omega)
    (by rw [show b.pos.1.toNat + 0 + i0 = b.pos.1.toNat + i0 by omega]; exact hfull)
    (fun i h1 h2 => by
      rw [show b.pos.1.toNat + 0 + i = b.pos.1.toNat + i by omega]
      exact hothers i h1 h2)
  rw [Tetris.commitClear, Tetris.commitAll, h,
    show b.pos.1.toNat + 0 + i0 = b.pos.1.toNat + i0 by omega]

/-- C5: when committing the current piece makes exactly one board row in the
piece's span full (row `x + i0`, where each scanned row's fullness is judged
with that row's column of the piece written into it), the commit-and-clear
pass clears exactly that row and counts one clear: the resulting board is the
fully committed board with row `x + i0` blanked and the prefix
`[0 ..= x + i0]` rotated right by one — so the emptied row becomes index 0,
every row below index `x + i0` shifts down (up in index) by one, and all
rows beyond are untouched — and the lock-in awards exactly 40 points. -/
theorem claim_C5 (t : Tetris) (fresh : TetrisBlock) (i0 : Nat)
    (hb : t.current_block.pos.1.toNat + t.current_block.pattern.length ≤
      t.filled_area.length)
    (hi : i0 < t.current_block.pattern.length)
    (hfull : Tetris.rowFull (Tetris.commitCol t.current_block.color
        t.current_block.pos.2.toNat (t.current_block.pattern.getD i0 [])
        (t.filled_area.getD (t.current_block.pos.1.toNat + i0) [])) = true)
    (hothers : ∀ i, i < t.current_block.pattern.length → i ≠ i0 →
      Tetris.rowFull (Tetris.commitCol t.current_block.color
        t.current_block.pos.2.toNat (t.current_block.pattern.getD i [])
        (t.filled_area.getD (t.current_block.pos.1.toNat + i) [])) = false) :
    Tetris.commitClear t.current_block t.filled_area =
      (Tetris.clearRow (Tetris.commitAll t.current_block t.filled_area)
        (t.current_block.pos.1.toNat + i0), 1) ∧
    (Tetris.finish_round fresh t).points = t.points + 40 ∧
    (Tetris.commitClear t.current_block t.filled_area).1[0]? =
      some (Tetris.blankRow ((Tetris.commitAll t.current_block t.filled_area).getD
        (t.current_block.pos.1.toNat + i0) [])) ∧
    (∀ n, 0 < n → n ≤ t.current_block.pos.1.toNat + i0 →
      (Tetris.commitClear t.current_block t.filled_area).1[n]? =
        (Tetris.commitAll t.current_block t.filled_area)[n - 1]?) ∧
    (∀ n, t.current_block.pos.1.toNat + i0 < n →
      (Tetris.commitClear t.current_block t.filled_area).1[n]? =
        (Tetris.commitAll t.current_block t.filled_area)[n]?) := by
  have hmain := commitClear_single t.current_block t.filled_area i0 hi hb hfull hothers
  have h1 : (Tetris.commitClear t.current_block t.filled_area).1 =
      Tetris.clearRow (Tetris.commitAll t.current_block t.filled_area)
        (t.current_block.pos.1.toNat + i0) := by
    rw [hmain]
  have hAlen : (Tetris.commitAll t.current_block t.filled_area).length =
      t.filled_area.length := by
    rw [Tetris.commitAll]
    exact length_commitAllAux _ _ _ _ _ _
  have hr : t.current_block.pos.1.toNat + i0 <
      (Tetris.commitAll t.current_block t.filled_area).length := by omega
  refine ⟨hmain, ?_, ?_, ?_, ?_⟩
  · rw [finish_round_points, hmain]
    rfl
  · rw [h1, getElem?_clearRow hr 0, if_pos rfl]
  · intro n hn1 hn2
    rw [h1, getElem?_clearRow hr n, if_neg (by omega), if_pos hn2]
  · intro n hn
    rw [h1, getElem?_clearRow hr n, if_neg (by omega), if_neg (by omega)]

theorem claim_C5_witness :
    Tetris.commitClear oneRowState.current_block oneRowState.filled_area =
      (Tetris.clearRow (Tetris.commitAll oneRowState.current_block
        oneRowState.filled_area) (oneRowState.current_block.pos.1.toNat + 0), 1) ∧
    (Tetris.finish_round freshBlock oneRowState).points = oneRowState.points + 40 :=
  ⟨(claim_C5 oneRowState freshBlock 0 (by decide) (by decide) (by decide)
      (fun i h1 h2 => absurd (Nat.lt_one_iff.mp h1) h2)).1,
   (claim_C5 oneRowState freshBlock 0 (by decide) (by decide) (by decide)
      (fun i h1 h2 => absurd (Nat.lt_one_iff.mp h1) h2)).2.1⟩

theorem anyCell_true_iff {p : List (List Bool)} {f : Nat → Nat → Bool} :
    anyCell p f = true ↔ ∃ i, i < p.length ∧ ∃ j, j < (p.getD i []).length ∧
      (p.getD i []).getD j false = true ∧ f i j = true := by
  simp only [anyCell, List.any_eq_true, List.mem_range, Bool.and_eq_true]

theorem endPosAux_le (t : Tetris) : ∀ fuel x, x ≤ Tetris.endPosAux t fuel x := by
  intro fuel
  induction fuel with
  | zero => intro x; exact Nat.le_refl x
  | succ n ih =>
    intro x
    rw [Tetris.endPosAux]
    split
    · exact Nat.le_refl x
    · exact Nat.le_trans (Nat.le_succ x) (ih (x + 1))

theorem endPosAux_not_hit (t : Tetris) :
    ∀ fuel x z, x ≤ z → z < Tetris.endPosAux t fuel x → Tetris.hitsAt t z = false := by
  intro fuel
  induction fuel with
  | zero =>
    intro x z h1 h2
    rw [Tetris.endPosAux] at h2
    omega
  | succ n ih =>
    intro x z h1 h2
    rw [Tetris.endPosAux] at h2
    by_cases hb : Tetris.hitsAt t x = true
    · rw [if_pos hb] at h2
      omega
    · rw [if_neg hb] at h2
      rcases Nat.eq_or_lt_of_le h1 with he | hlt
      · rw [he] at hb
        simpa using hb
      · exact ih (x + 1) z hlt h2

theorem endPosAux_hit_or (t : Tetris) :
    ∀ fuel x, Tetris.hitsAt t (Tetris.endPosAux t fuel x) = true ∨
      Tetris.endPosAux t fuel x = x + fuel := by
  intro fuel
  induction fuel with
  | zero =>
    intro x
    right
    rfl
  | succ n ih =>
    intro x
    rw [Tetris.endPosAux]
    by_cases hb : Tetris.hitsAt t x = true
    · rw [if_pos hb]
      exact Or.inl hb
    · rw [if_neg hb]
      rcases ih (x + 1) with hh | he
      · exact Or.inl hh
      · right
        omega

theorem hitsAt_of_beyond {t : Tetris}
    (h : anyCell t.current_block.pattern (fun _ _ => true) = true)
    {z : Nat} (hz : t.filled_area.length ≤ z) : Tetris.hitsAt t z = true := by
  rcases anyCell_true_iff.mp h with ⟨i, hi, j, hj, hc, _⟩
  rw [Tetris.hitsAt]
  apply anyCell_true_iff.mpr
  refine ⟨i, hi, j, hj, hc, ?_⟩
  have : t.filled_area.length ≤ z + i + 1 := by omega
  simp [this]

/-- C10: whenever the current piece has at least one filled cell, the drop
search `get_end_move_pos` terminates within its fuel bound and returns the
farthest primary position reachable by repeated unobstructed advancement: a
position `x0` at or beyond the current one that is blocked (`hitsAt`), with
every intermediate position unobstructed; the secondary coordinate is
returned unchanged, and no engine state is mutated (the function is pure in
the model, as `get_end_move_pos` takes `&self` in the source). -/
theorem claim_C10 (t : Tetris)
    (h : anyCell t.current_block.pattern (fun _ _ => true) = true) :
    ∃ x0 : Nat,
      Tetris.get_end_move_pos t = ((x0 : Int), (t.current_block.pos.2.toNat : Int)) ∧
      t.current_block.pos.1.toNat ≤ x0 ∧
      Tetris.hitsAt t x0 = true ∧
      ∀ z, t.current_block.pos.1.toNat ≤ z → z < x0 → Tetris.hitsAt t z = false := by
  refine ⟨Tetris.endPosAux t (t.filled_area.length + 1) t.current_block.pos.1.toNat,
    rfl, endPosAux_le t _ _, ?_, fun z h1 h2 => endPosAux_not_hit t _ _ z h1 h2⟩
  rcases endPosAux_hit_or t (t.filled_area.length + 1) t.current_block.pos.1.toNat with hh | he
  · exact hh
  · exfalso
    have hub := endPosAux_le t (t.filled_area.length + 1) t.current_block.pos.1.toNat
    have hmax : Tetris.hitsAt t (max t.current_block.pos.1.toNat t.filled_area.length)
        = false := by
      apply endPosAux_not_hit t (t.filled_area.length + 1) t.current_block.pos.1.toNat
      · omega
      · omega
    have hhit : Tetris.hitsAt t (max t.current_block.pos.1.toNat t.filled_area.length)
        = true := hitsAt_of_beyond h (by omega)
    rw [hmax] at hhit
    exact Bool.noConfusion hhit

theorem claim_C10_witness :
    ∃ x0 : Nat,
      Tetris.get_end_move_pos dropState =
        ((x0 : Int), (dropState.current_block.pos.2.toNat : Int)) ∧
      dropState.current_block.pos.1.toNat ≤ x0 ∧
      Tetris.hitsAt dropState x0 = true ∧
      ∀ z, dropState.current_block.pos.1.toNat ≤ z → z < x0 →
        Tetris.hitsAt dropState z = false :=
  claim_C10 dropState (by decide)

end TerminalTetris
